import Mathlib

set_option maxRecDepth 8192

/-!
Verification of the ipvx IPv4 library (TypeScript) against its
natural-language specification.

The relevant source functions are shallowly embedded over `Nat`.
JavaScript strings are modelled as lists of UTF-16 code units
(`List Nat`, as produced by `String.prototype.charCodeAt`), and
JavaScript 32-bit results are modelled by carrying the unsigned
bit pattern (`x >>> 0`, i.e. `x % 2^32`): every consumer of an
intermediate signed `int32` in the embedded code paths first
coerces it through `ToUint32`/`ToInt32`, both of which depend only
on the bit pattern modulo `2^32`, so carrying unsigned patterns is
observationally faithful.  Where a signed comparison or an exact
(float) addition occurs in the source, the embedding switches to
`Int` at exactly that point.  Fallible functions (JS `throw`)
return `Option`.
-/

namespace IPvx

/-- UTF-16 code units of a Lean string literal; used to write concrete
JavaScript string inputs in theorems.  All concrete inputs in this file
are ASCII, where `Char.toNat` is the UTF-16 code unit. -/
def strCodes (s : String) : List Nat :=
  s.data.map Char.toNat

/-- JS `x >>> 0` applied to an integer-valued expression: ToUint32. -/
def toUint32 (n : Nat) : Nat := n % 2 ^ 32

/-- JS `~x` on a 32-bit pattern: bitwise complement within 32 bits
(the unsigned bit pattern of the int32 result). -/
def jsNot32 (n : Nat) : Nat := (n % 2 ^ 32) ^^^ 0xFFFFFFFF

/- ---------------------------------------------------------------------
Octet layer: src/ipv4/utils/octet.ts
--------------------------------------------------------------------- -/

/-- Embeds `octetsToBitflag` (octet.ts): JS
`((octets[0] << 24) | (octets[1] << 16) | (octets[2] << 8) | octets[3]) >>> 0`.
The function performs no validation.  Indexing past the end of the array
yields `undefined`, which the bitwise operators coerce to `0`
(modelled by `getD _ 0`); each `<<` produces an int32 whose unsigned
pattern is the shift modulo `2^32`. -/
def octetsToBitflag (octets : List Nat) : Nat :=
  toUint32 (toUint32 (octets.getD 0 0 <<< 24) |||
    toUint32 (octets.getD 1 0 <<< 16) |||
    toUint32 (octets.getD 2 0 <<< 8) |||
    toUint32 (octets.getD 3 0))

/-- Embeds `bitflagToOctets` (octet.ts):
`[(ip >>> 24) & 0xFF, (ip >>> 16) & 0xFF, (ip >>> 8) & 0xFF, ip & 0xFF]`. -/
def bitflagToOctets (ip : Nat) : List Nat :=
  [(toUint32 ip >>> 24) &&& 0xFF,
   (toUint32 ip >>> 16) &&& 0xFF,
   (toUint32 ip >>> 8) &&& 0xFF,
   toUint32 ip &&& 0xFF]

/-- Embeds `setOctet` (octet.ts).  Throws for a position outside `[0,3]`
or a value outside `[0,255]`; otherwise clears the addressed byte with
`ip & ~(0xFF << shift)` and installs the value with
`| (value << shift)`, returning the `>>> 0` unsigned result. -/
def setOctet (ip : Nat) (octetPosition : Nat) (value : Nat) : Option Nat :=
  if 3 < octetPosition then none
  else if 255 < value then none
  else
    let shiftAmount := (3 - octetPosition) * 8
    let mask := jsNot32 (0xFF <<< shiftAmount)
    some (toUint32 ((toUint32 ip &&& mask) ||| toUint32 (value <<< shiftAmount)))

/- ---------------------------------------------------------------------
Parser / formatter: src/ipv4/util/parse.ts
--------------------------------------------------------------------- -/

/-- The constant `VALID_IPV4_CHARS` (constants.ts): bitmask with the bits
of the code points of `'0'..'9'` (48..57, taken mod 32: bits 16..25) and
`'.'` (46 mod 32: bit 14) set. -/
def VALID_IPV4_CHARS : Nat := 0x03FF4000

/-- Embeds `isValidChar` (parse.ts):
`(validCharMask & (1 << charCode)) !== 0`.  JavaScript masks the shift
count of `<<` to five bits, so the test actually consults bit
`charCode % 32` of the mask. -/
def isValidChar (charCode : Nat) (validCharMask : Nat) : Bool :=
  validCharMask &&& (1 <<< (charCode % 32)) ≠ 0

/-- Result of `validateIPv4`.  The source returns
`{isValid, reason}` where the reason is one of five template strings;
each constructor below corresponds to one template, carrying the
interpolated datum. -/
inductive VRes where
  /-- `isValid: true` -/
  | valid : VRes
  /-- reason `Invalid character in IP address: ...` -/
  | invalidChar (c : Nat) : VRes
  /-- reason `IPv4 address must have exactly 4 octets` -/
  | badOctetCount : VRes
  /-- reason `Invalid octet: ...` (`parseInt` returned `NaN`) -/
  | invalidOctet (part : List Nat) : VRes
  /-- reason `Octet out of range: ...` -/
  | octetOutOfRange (v : Nat) : VRes
  /-- reason `Leading zeros are not allowed: ...` -/
  | leadingZeros (part : List Nat) : VRes
deriving DecidableEq, Repr

/-- JS `s.split(sep)` for a one-character separator `sep`: split at
every occurrence of `sep`, keeping empty components, with `[""]` for
the empty string — exactly `List.splitOn`. -/
def splitOn (sep : Nat) (s : List Nat) : List (List Nat) :=
  s.splitOn sep

/-- Decimal digit code test (`'0'` = 48 .. `'9'` = 57). -/
def isDigitCode (c : Nat) : Bool := 48 ≤ c && c ≤ 57

/-- Numeric value of a list of decimal digit codes. -/
def digitsVal (ds : List Nat) : Nat :=
  ds.foldl (fun a c => 10 * a + (c - 48)) 0

/-- Embeds JS `parseInt(s, 10)` for the strings it is applied to in
`validateIPv4`/`parseIPv4`: those strings contain no whitespace and no
sign character (both are rejected by the preceding character scan), so
`parseInt` takes the longest leading run of decimal digits, returns
`NaN` (here `none`) when that run is empty, and otherwise its value.
(`parseInt` rounds values beyond 2^53 to a float, but rounding never
moves a value across the only thresholds consulted here, 0 and 255,
so the exact value is observationally faithful.) -/
def parseIntDec (s : List Nat) : Option Nat :=
  let ds := s.takeWhile isDigitCode
  if ds.isEmpty then none else some (digitsVal ds)

/-- The per-octet loop body of `validateIPv4` (parse.ts lines 32-46),
checked in source order: integer parse, range, leading zeros. -/
def checkOctets : List (List Nat) → VRes
  | [] => .valid
  | part :: rest =>
    match parseIntDec part with
    | none => .invalidOctet part
    | some v =>
      if 255 < v then .octetOutOfRange v
      else if 1 < part.length && part.headD 0 = 48 then .leadingZeros part
      else checkOctets rest

/-- Embeds `validateIPv4` (parse.ts lines 18-49): scan for the first
character rejected by `isValidChar`, then split on `'.'` and require
exactly 4 components, then run the per-octet checks in order.
(`parseInt` cannot return a negative number here because the sign
characters are rejected by the character scan, so the source's
`octet < 0` branch is unreachable and the embedded range check is
`octet > 255` alone.) -/
def validateIPv4 (ip : List Nat) : VRes :=
  match ip.find? (fun c => !isValidChar c VALID_IPV4_CHARS) with
  | some c => .invalidChar c
  | none =>
    let octets := splitOn 46 ip
    if octets.length ≠ 4 then .badOctetCount
    else checkOctets octets

/-- Embeds `parseIPv4` (parse.ts lines 63-71): validate, throw on
failure, otherwise re-split, `parseInt` each component and compose with
`octetsToBitflag`.  (After successful validation every component parses,
so the `getD 0` default is never consulted.) -/
def parseIPv4 (ip : List Nat) : Option Nat :=
  match validateIPv4 ip with
  | .valid => some (octetsToBitflag
      ((splitOn 46 ip).map (fun part => (parseIntDec part).getD 0)))
  | _ => none

/-- Decimal rendering of an integer in `[0, 255]`, as produced by the
JS number-to-string conversion inside `octets.join('.')`: no sign, no
leading zeros, `0` rendered as the single digit `"0"`. -/
def numToDigits (n : Nat) : List Nat :=
  if n < 10 then [48 + n]
  else if n < 100 then [48 + n / 10, 48 + n % 10]
  else [48 + n / 100, 48 + n / 10 % 10, 48 + n % 10]

/-- Embeds `formatIPv4` (parse.ts lines 84-87):
`bitflagToOctets(bitflag).join('.')`. -/
def formatIPv4 (bitflag : Nat) : List Nat :=
  List.intercalate [46] ((bitflagToOctets bitflag).map numToDigits)

/-- A canonical dotted-decimal octet component: nonempty, all decimal
digits, value at most 255, and no leading zero (a multi-digit component
does not start with `'0'`). -/
def canonOctet (p : List Nat) : Bool :=
  !p.isEmpty && p.all isDigitCode && digitsVal p ≤ 255
    && !(1 < p.length && p.headD 0 = 48)

/-- A canonical dotted-decimal IPv4 string: splitting at the dots
yields exactly four canonical octet components. -/
def isCanonicalIPv4 (s : List Nat) : Bool :=
  match splitOn 46 s with
  | [p0, p1, p2, p3] => canonOctet p0 && canonOctet p1 && canonOctet p2 && canonOctet p3
  | _ => false

/- ---------------------------------------------------------------------
Bit primitives: src/ipv4/lib/bitwise/bitmask.ts
--------------------------------------------------------------------- -/

/-- Value computed by `generateBitmask` (bitmask.ts) on its declared
domain `[0, 32]`: `numBits === 0 ? 0 : (0xFFFFFFFF << (32 - numBits)) >>> 0`.
The source throws outside `[0, 32]`; every embedded call site below
either passes a constant in range or has already bounds-checked
(`createMask`). -/
def genMask (numBits : Nat) : Nat :=
  if numBits = 0 then 0 else toUint32 (0xFFFFFFFF <<< (32 - numBits))

/-- Embeds `applyMask` (bitmask.ts, and the identical wrapper in
mask.ts built on `and` from basic.ts): `(value & mask) >>> 0`. -/
def applyMask (value : Nat) (mask : Nat) : Nat :=
  toUint32 (toUint32 value &&& toUint32 mask)

/-- Embeds `extractBits` (bitmask.ts): throws unless
`0 ≤ start ≤ end ≤ 31`, else
`(n & (((1 << (end - start + 1)) - 1) << start)) >>> start`. -/
def extractBits (n : Nat) (start : Nat) (stop : Nat) : Option Nat :=
  if 31 < stop ∨ stop < start then none
  else some ((toUint32 n &&& toUint32 ((1 <<< (stop - start + 1) - 1) <<< start)) >>> start)

/-- Embeds `extractOctet` (octet.ts): position check then
`extractBits(ip, (3 - pos) * 8, (3 - pos) * 8 + 7)`. -/
def extractOctet (ip : Nat) (octetPosition : Nat) : Option Nat :=
  if 3 < octetPosition then none
  else extractBits ip ((3 - octetPosition) * 8) ((3 - octetPosition) * 8 + 7)

/-- The `while` loop of `countLeadingOnes` (bitmask.ts lines 131-139):
`while ((n & 0x80000000) === 0 && count < 32) { count++; n <<= 1 }`.
The loop runs at most 32 iterations (the `count < 32` guard), so fuel
32 with the starting count 0 reproduces it exactly: when the fuel runs
out, `count` has reached 32 and the guard would have stopped the
source loop as well. -/
def cloGo (fuel : Nat) (m : Nat) (count : Nat) : Nat :=
  match fuel with
  | 0 => count
  | f + 1 =>
    if m &&& 0x80000000 = 0 ∧ count < 32 then
      cloGo f (toUint32 (m <<< 1)) (count + 1)
    else count

/-- Embeds `countLeadingOnes` (bitmask.ts): complement the input
(`n = ~n`) and count how often the top bit of the 32-bit pattern stays
clear while shifting left. -/
def countLeadingOnes (n : Nat) : Nat :=
  cloGo 32 (jsNot32 n) 0

/- ---------------------------------------------------------------------
Mask utilities: src/ipv4/utils/mask.ts (low-level variant)
--------------------------------------------------------------------- -/

/-- Embeds `createMask` (mask.ts lines 24-29): throws unless the prefix
length is an integer in `[0, 32]`, else `generateBitmask(prefixLength) >>> 0`.
(Negative and fractional inputs are not representable in `Nat`; they are
rejected by the same guard in the source.) -/
def createMask (prefixLength : Nat) : Option Nat :=
  if 32 < prefixLength then none
  else some (toUint32 (genMask prefixLength))

/-- Embeds `getMaskPrefix` (mask.ts lines 43-49): derive the prefix by
`countLeadingOnes`, re-derive a mask from it with `createMask`, and
throw `Invalid subnet mask` unless the two agree bit-for-bit
(`(mask >>> 0) !== (createMask(prefix) >>> 0)`). -/
def getMaskPrefix (mask : Nat) : Option Nat :=
  match createMask (countLeadingOnes mask) with
  | none => none
  | some m => if toUint32 mask ≠ m then none else some (countLeadingOnes mask)

/-- Embeds `invertMaskBits` (mask.ts): `invertMask(mask) >>> 0` where
`invertMask` (basic.ts) is `(~mask) >>> 0`. -/
def invertMaskBits (mask : Nat) : Nat :=
  toUint32 (jsNot32 mask)

/-- Embeds `combineMasks` (mask.ts): `and(mask1, mask2) >>> 0`. -/
def combineMasks (mask1 : Nat) (mask2 : Nat) : Nat :=
  toUint32 (toUint32 mask1 &&& toUint32 mask2)

/- ---------------------------------------------------------------------
Classification: src/ipv4/utils/classify.ts
--------------------------------------------------------------------- -/

namespace Classify

/-- Embeds `isMulticastIP` (classify.ts):
`applyMask(ip, generateBitmask(4)) === 0xE0000000`. -/
def isMulticastIP (ip : Nat) : Bool :=
  applyMask ip (genMask 4) = 0xE0000000

/-- Embeds `isReservedIP` (classify.ts lines 151-174): seven masked
range checks (0.0.0.0/8, 100.64.0.0/10, 192.0.0.0/24, 192.0.2.0/24,
198.51.100.0/24, 203.0.113.0/24, 240.0.0.0/4); the source's chain of
early `return true`s is their disjunction, in source order. -/
def isReservedIP (ip : Nat) : Bool :=
  (applyMask ip (genMask 8) = 0x00000000) ||
  (applyMask ip (genMask 10) = 0x64400000) ||
  (applyMask ip (genMask 24) = 0xC0000000) ||
  (applyMask ip (genMask 24) = 0xC0000200) ||
  (applyMask ip (genMask 24) = 0xC6336400) ||
  (applyMask ip (genMask 24) = 0xCB007100) ||
  (applyMask ip (genMask 4) = 0xF0000000)

/-- Embeds `getMulticastType` (classify.ts lines 217-255).  The
`firstOctet` is `extractOctet(ip, 0)`, which never throws at position 0
(the `getD 0` default is unreachable).  After the non-multicast and
reserved checks come the `switch` on the first octet (224, 225, 238,
239) and then the `232..235` / `236..237` interval checks; everything
else inside the multicast range is `Reserved`. -/
def getMulticastType (ip : Nat) : String :=
  if !isMulticastIP ip then "Not Multicast"
  else
    let firstOctet := (extractOctet ip 0).getD 0
    if isReservedIP ip then "Reserved"
    else if firstOctet = 224 then "Well-Known Multicast"
    else if firstOctet = 225 then "Transient Multicast"
    else if firstOctet = 238 then
      if applyMask ip (genMask 24) = 0xEE000000 then "Unicast-Prefix-based Multicast"
      else "Reserved"
    else if firstOctet = 239 then "Administratively Scoped"
    else if 232 ≤ firstOctet ∧ firstOctet ≤ 235 then "Source-Specific Multicast"
    else if 236 ≤ firstOctet ∧ firstOctet ≤ 237 then "GLOP Addressing"
    else "Reserved"

end Classify

/- ---------------------------------------------------------------------
Special-use classification: src/ipv4/core/cidr.ts (special.ts section)
--------------------------------------------------------------------- -/

namespace Special

/-!
The special.ts predicates take branded `IPv4Address` strings and compare
them through `isIPInRange` (operations.ts), which parses both bounds and
the address with the same parser embedded above and compares the
numeric bitflags with `<=`.  Branded address strings are canonical, so
they are in order-preserving bijection with bitflags in `[0, 2^32-1]`;
the predicates are embedded directly on the parsed bitflag.  Each range
constant below is the parsed value of the dotted literal in the source
(noted in the comment). -/

/-- Embeds `isPrivateIP` (special.ts): `PRIVATE_RANGES` =
10.0.0.0-10.255.255.255, 172.16.0.0-172.31.255.255,
192.168.0.0-192.168.255.255. -/
def isPrivateIP (ip : Nat) : Bool :=
  (0x0A000000 ≤ ip && ip ≤ 0x0AFFFFFF) ||
  (0xAC100000 ≤ ip && ip ≤ 0xAC1FFFFF) ||
  (0xC0A80000 ≤ ip && ip ≤ 0xC0A8FFFF)

/-- Embeds `isLoopbackIP` (special.ts): 127.0.0.0-127.255.255.255. -/
def isLoopbackIP (ip : Nat) : Bool :=
  0x7F000000 ≤ ip && ip ≤ 0x7FFFFFFF

/-- Embeds `isLinkLocalIP` (special.ts): 169.254.0.0-169.254.255.255. -/
def isLinkLocalIP (ip : Nat) : Bool :=
  0xA9FE0000 ≤ ip && ip ≤ 0xA9FEFFFF

/-- Embeds `isMulticastIP` (special.ts): 224.0.0.0-239.255.255.255. -/
def isMulticastIP (ip : Nat) : Bool :=
  0xE0000000 ≤ ip && ip ≤ 0xEFFFFFFF

/-- Embeds `isBroadcastIP` (special.ts): string equality with
`'255.255.255.255'`; on canonical branded strings this is numeric
equality with 0xFFFFFFFF. -/
def isBroadcastIP (ip : Nat) : Bool :=
  ip = 0xFFFFFFFF

/-- Embeds `isDocumentationIP` (special.ts): `DOCUMENTATION_RANGES` =
192.0.2.0/24, 198.51.100.0/24, 203.0.113.0/24. -/
def isDocumentationIP (ip : Nat) : Bool :=
  (0xC0000200 ≤ ip && ip ≤ 0xC00002FF) ||
  (0xC6336400 ≤ ip && ip ≤ 0xC63364FF) ||
  (0xCB007100 ≤ ip && ip ≤ 0xCB0071FF)

/-- Embeds `isBenchmarkingIP` (special.ts): 198.18.0.0-198.19.255.255. -/
def isBenchmarkingIP (ip : Nat) : Bool :=
  0xC6120000 ≤ ip && ip ≤ 0xC613FFFF

/-- Embeds `isSharedAddressSpaceIP` (special.ts):
100.64.0.0-100.127.255.255. -/
def isSharedAddressSpaceIP (ip : Nat) : Bool :=
  0x64400000 ≤ ip && ip ≤ 0x647FFFFF

/-- Embeds `isReservedIP` (special.ts): `RESERVED_RANGES` =
0.0.0.0-0.255.255.255 and 240.0.0.0-255.255.255.254 (lines 529-532). -/
def isReservedIP (ip : Nat) : Bool :=
  (ip ≤ 0x00FFFFFF) || (0xF0000000 ≤ ip && ip ≤ 0xFFFFFFFE)

/-- Embeds `getSpecialIPType` (special.ts lines 680-691), in source
order: Private, Loopback, Link-local, Multicast, Broadcast,
Benchmarking, Shared Address Space, Documentation, Reserved, Public. -/
def getSpecialIPType (ip : Nat) : String :=
  if isPrivateIP ip then "Private"
  else if isLoopbackIP ip then "Loopback"
  else if isLinkLocalIP ip then "Link-local"
  else if isMulticastIP ip then "Multicast"
  else if isBroadcastIP ip then "Broadcast"
  else if isBenchmarkingIP ip then "Benchmarking"
  else if isSharedAddressSpaceIP ip then "Shared Address Space"
  else if isDocumentationIP ip then "Documentation"
  else if isReservedIP ip then "Reserved"
  else "Public"

/-- The single-category classifier in the precedence order stated by
the specification (modelled from the spec's words, for comparison with
`getSpecialIPType`): Private, Loopback, Link-local, Multicast,
Broadcast, Documentation, Benchmarking, Shared-Address-Space, Reserved,
Public, first match wins. -/
def specOrderClassify (ip : Nat) : String :=
  if isPrivateIP ip then "Private"
  else if isLoopbackIP ip then "Loopback"
  else if isLinkLocalIP ip then "Link-local"
  else if isMulticastIP ip then "Multicast"
  else if isBroadcastIP ip then "Broadcast"
  else if isDocumentationIP ip then "Documentation"
  else if isBenchmarkingIP ip then "Benchmarking"
  else if isSharedAddressSpaceIP ip then "Shared Address Space"
  else if isReservedIP ip then "Reserved"
  else "Public"

end Special

/- ---------------------------------------------------------------------
Address arithmetic: src/ipv4/operations.ts
--------------------------------------------------------------------- -/

/-- The local `ipToBitflag` of operations.ts:
`ip.split('.').map(Number)` then `octetsToBitflag`.  It is applied only
to branded `IPv4Address` strings, whose components are nonempty
all-digit strings; on those, `Number` is the decimal value
(`digitsVal`). -/
def opsIpToBitflag (ip : List Nat) : Nat :=
  octetsToBitflag ((splitOn 46 ip).map digitsVal)

/-- Embeds `incrementIP` (operations.ts lines 262-269) on the parsed
bitflag: `result = (bitflag + amount) >>> 0` — ToUint32 of the exact sum,
i.e. the mathematical value modulo `2^32` — followed by the source's
`result > 0xFFFFFFFF` overflow test on that already-wrapped result. -/
def incrementIPNum (bitflag : Nat) (amount : Int) : Option Nat :=
  let result : Nat := (((bitflag : Int) + amount).emod (2 ^ 32)).toNat
  if 0xFFFFFFFF < result then none else some result

/-- Embeds `decrementIP` (operations.ts lines 284-291) on the parsed
bitflag: `result = (bitflag - amount) >>> 0`, then the underflow test
`bitflag < amount` (on the signed operands), then the wrapped result. -/
def decrementIPNum (bitflag : Nat) (amount : Int) : Option Nat :=
  let result : Nat := (((bitflag : Int) - amount).emod (2 ^ 32)).toNat
  if (bitflag : Int) < amount then none else some result

/-- String-level `incrementIP`: convert with the local `ipToBitflag`,
compute, convert back with the local `bitflagToIP` (identical to
`formatIPv4`). -/
def incrementIP (ip : List Nat) (amount : Int) : Option (List Nat) :=
  (incrementIPNum (opsIpToBitflag ip) amount).map formatIPv4

/-- String-level `decrementIP`, as for `incrementIP`. -/
def decrementIP (ip : List Nat) (amount : Int) : Option (List Nat) :=
  (decrementIPNum (opsIpToBitflag ip) amount).map formatIPv4

/- ---------------------------------------------------------------------
CIDR algebra: src/ipv4/core/cidr.ts
--------------------------------------------------------------------- -/

/-!
cidr.ts parses its string arguments with `parseIPv4` and calls
`createSubnetMask`, which resolves to `createMask` of mask.ts.  Each
function below is embedded as a numeric core on the parsed bitflag
(named `...Num`), plus a string-level wrapper where a claim mentions
string inputs or outputs. -/

/-- Numeric core of `calculateNetworkAddress` (cidr.ts lines 64-69):
`applyMask(ipBitflag, createSubnetMask(prefixLength)) >>> 0`. -/
def calculateNetworkAddressNum (ip : Nat) (prefixLength : Nat) : Option Nat :=
  (createMask prefixLength).map (fun mask => toUint32 (applyMask ip mask))

/-- Numeric core of `calculateBroadcastAddress` (cidr.ts lines 87-93):
`or(ipBitflag, not(createSubnetMask(prefixLength)) >>> 0) >>> 0`. -/
def calculateBroadcastAddressNum (ip : Nat) (prefixLength : Nat) : Option Nat :=
  (createMask prefixLength).map (fun mask =>
    toUint32 (toUint32 ip ||| toUint32 (jsNot32 mask)))

/-- Numeric core of `isSubnetOf` (cidr.ts lines 337-347): an early
`false` when `prefixLengthA <= prefixLengthB`, otherwise compare the
two networks masked with B's mask. -/
def isSubnetOfNum (networkA : Nat) (prefixLengthA : Nat)
    (networkB : Nat) (prefixLengthB : Nat) : Option Bool :=
  if prefixLengthA ≤ prefixLengthB then some false
  else (createMask prefixLengthB).map (fun maskB =>
    applyMask networkA maskB = applyMask networkB maskB)

/-- The `for` loop of `splitSubnet` (cidr.ts lines 217-224): push
`(networkInt + i * newSubnetSize) >>> 0` for `i = 0 .. count-1`,
throwing when the pushed value exceeds `0xFFFFFFFF` (a test the
preceding `>>> 0` makes unreachable, retained verbatim). -/
def splitSubnetGo (networkInt : Nat) (newSubnetSize : Nat) :
    Nat → Nat → Option (List Nat)
  | _, 0 => some []
  | i, k + 1 =>
    let newSubnetInt := toUint32 (networkInt + i * newSubnetSize)
    if 0xFFFFFFFF < newSubnetInt then none
    else (splitSubnetGo networkInt newSubnetSize (i + 1) k).map
      (fun rest => newSubnetInt :: rest)

/-- Numeric core of `splitSubnet` (cidr.ts lines 208-227): reject
`newPrefixLength <= currentPrefixLength` and `newPrefixLength > 32`,
then produce `2^(newPrefixLength - currentPrefixLength)` addresses at
stride `2^(32 - newPrefixLength)`. -/
def splitSubnetNum (networkInt : Nat) (currentPrefixLength : Nat)
    (newPrefixLength : Nat) : Option (List Nat) :=
  if newPrefixLength ≤ currentPrefixLength ∨ 32 < newPrefixLength then none
  else splitSubnetGo networkInt (2 ^ (32 - newPrefixLength)) 0
    (2 ^ (newPrefixLength - currentPrefixLength))

/-- String-level `splitSubnet`: parse the network address, run the
loop, format every produced address. -/
def splitSubnet (networkAddress : List Nat) (currentPrefixLength : Nat)
    (newPrefixLength : Nat) : Option (List (List Nat)) :=
  (parseIPv4 networkAddress).bind (fun networkInt =>
    (splitSubnetNum networkInt currentPrefixLength newPrefixLength).map
      (fun l => l.map formatIPv4))

/- ---------------------------------------------------------------------
Arithmetic characterizations of the embedded bit operations
--------------------------------------------------------------------- -/

theorem toUint32_lt (n : Nat) : toUint32 n < 2 ^ 32 :=
  Nat.mod_lt _ (by norm_num)

theorem toUint32_eq_of_lt {n : Nat} (h : n < 2 ^ 32) : toUint32 n = n :=
  Nat.mod_eq_of_lt h

/-- The mask produced for `k` network bits is `2^32 - 2^(32-k)`. -/
theorem genMask_eq : ∀ k < 33, genMask k = 2 ^ 32 - 2 ^ (32 - k) := by decide

/-- Conjunction with a high mask keeps exactly the bits from position
`h` upward: division semantics. -/
theorem land_himask {a : Nat} (h : Nat) (ha : a < 2 ^ 32) (hh : h ≤ 32) :
    a &&& (2 ^ 32 - 2 ^ h) = 2 ^ h * (a / 2 ^ h) := by
  have hm : (2 : Nat) ^ 32 - 2 ^ h = (2 ^ (32 - h) - 1) <<< h := by
    rw [Nat.shiftLeft_eq, Nat.sub_mul, one_mul, ← pow_add]
    congr 2
    omega
  have hr : 2 ^ h * (a / 2 ^ h) = (a >>> h) <<< h := by
    rw [Nat.shiftRight_eq_div_pow, Nat.shiftLeft_eq, Nat.mul_comm]
  rw [hm, hr]
  apply Nat.eq_of_testBit_eq
  intro i
  rw [Nat.testBit_and, Nat.testBit_shiftLeft, Nat.testBit_shiftLeft,
    Nat.testBit_two_pow_sub_one, Nat.testBit_shiftRight]
  by_cases hih : h ≤ i
  · have : h + (i - h) = i := by omega
    rw [this]
    by_cases hi32 : i < 32
    · simp [hih, Nat.sub_lt_sub_right, show i - h < 32 - h by omega]
    · have : a.testBit i = false := Nat.testBit_lt_two_pow
        (lt_of_lt_of_le ha (Nat.pow_le_pow_right (by norm_num) (by omega)))
      simp [this]
  · simp [hih]

/-- Disjunction with a low mask fills the bits below `h` with ones. -/
theorem lor_lowmask (a h : Nat) :
    a ||| (2 ^ h - 1) = 2 ^ h * (a / 2 ^ h) + (2 ^ h - 1) := by
  have hsum : 2 ^ h * (a / 2 ^ h) + (2 ^ h - 1)
      = (2 ^ h * (a / 2 ^ h)) ||| (2 ^ h - 1) :=
    Nat.mul_add_lt_is_or (Nat.sub_lt (Nat.pos_pow_of_pos h (by norm_num)) one_pos) _
  have hr : 2 ^ h * (a / 2 ^ h) = (a >>> h) <<< h := by
    rw [Nat.shiftRight_eq_div_pow, Nat.shiftLeft_eq, Nat.mul_comm]
  rw [hsum, hr]
  apply Nat.eq_of_testBit_eq
  intro i
  rw [Nat.testBit_or, Nat.testBit_or, Nat.testBit_shiftLeft,
    Nat.testBit_two_pow_sub_one, Nat.testBit_shiftRight]
  by_cases hih : h ≤ i
  · have : h + (i - h) = i := by omega
    rw [this]
    simp [hih, show ¬ i < h by omega]
  · simp [hih, show i < h by omega]

/-- The complement of the `k`-bit network mask is the low mask of the
`32-k` host bits. -/
theorem jsNot32_genMask : ∀ k < 33, jsNot32 (genMask k) = 2 ^ (32 - k) - 1 := by
  decide

/-- `octetsToBitflag` on four in-range octets is the base-256
composition. -/
theorem octetsToBitflag_eq {o0 o1 o2 o3 : Nat}
    (h0 : o0 < 256) (h1 : o1 < 256) (h2 : o2 < 256) (h3 : o3 < 256) :
    octetsToBitflag [o0, o1, o2, o3]
      = o0 * 2 ^ 24 + o1 * 2 ^ 16 + o2 * 2 ^ 8 + o3 := by
  unfold octetsToBitflag toUint32
  simp only [List.getD, List.get?_eq_getElem?, List.getElem?_cons_zero,
    List.getElem?_cons_succ, Option.getD_some, Nat.shiftLeft_eq]
  have e0 : o0 * 2 ^ 24 % 2 ^ 32 = o0 * 2 ^ 24 := Nat.mod_eq_of_lt (by nlinarith)
  have e1 : o1 * 2 ^ 16 % 2 ^ 32 = o1 * 2 ^ 16 := Nat.mod_eq_of_lt (by nlinarith)
  have e2 : o2 * 2 ^ 8 % 2 ^ 32 = o2 * 2 ^ 8 := Nat.mod_eq_of_lt (by nlinarith)
  have e3 : o3 % 2 ^ 32 = o3 := Nat.mod_eq_of_lt (by omega)
  rw [e0, e1, e2, e3]
  have s1 : o0 * 2 ^ 24 ||| o1 * 2 ^ 16 = o0 * 2 ^ 24 + o1 * 2 ^ 16 := by
    have := Nat.mul_add_lt_is_or (b := o1 * 2 ^ 16) (i := 24) (by nlinarith) o0
    rw [Nat.mul_comm (2 ^ 24) o0] at this
    exact this.symm
  have s2 : (o0 * 2 ^ 24 + o1 * 2 ^ 16) ||| o2 * 2 ^ 8
      = o0 * 2 ^ 24 + o1 * 2 ^ 16 + o2 * 2 ^ 8 := by
    have := Nat.mul_add_lt_is_or (b := o2 * 2 ^ 8) (i := 16)
      (by nlinarith) (o0 * 2 ^ 8 + o1)
    have hx : (2 : Nat) ^ 16 * (o0 * 2 ^ 8 + o1) = o0 * 2 ^ 24 + o1 * 2 ^ 16 := by ring
    rw [hx] at this
    exact this.symm
  have s3 : (o0 * 2 ^ 24 + o1 * 2 ^ 16 + o2 * 2 ^ 8) ||| o3
      = o0 * 2 ^ 24 + o1 * 2 ^ 16 + o2 * 2 ^ 8 + o3 := by
    have := Nat.mul_add_lt_is_or (b := o3) (i := 8)
      (by omega) (o0 * 2 ^ 16 + o1 * 2 ^ 8 + o2)
    have hx : (2 : Nat) ^ 8 * (o0 * 2 ^ 16 + o1 * 2 ^ 8 + o2)
        = o0 * 2 ^ 24 + o1 * 2 ^ 16 + o2 * 2 ^ 8 := by ring
    rw [hx] at this
    exact this.symm
  rw [s1, s2, s3]
  exact Nat.mod_eq_of_lt (by nlinarith)

/-- `bitflagToOctets` extracts the four base-256 digits. -/
theorem bitflagToOctets_eq {n : Nat} (h : n < 2 ^ 32) :
    bitflagToOctets n
      = [n / 2 ^ 24, n / 2 ^ 16 % 256, n / 2 ^ 8 % 256, n % 256] := by
  unfold bitflagToOctets toUint32
  rw [Nat.mod_eq_of_lt h]
  have hx : (0xFF : Nat) = 2 ^ 8 - 1 := by norm_num
  rw [hx, Nat.and_pow_two_sub_one_eq_mod, Nat.and_pow_two_sub_one_eq_mod,
    Nat.and_pow_two_sub_one_eq_mod, Nat.and_pow_two_sub_one_eq_mod,
    Nat.shiftRight_eq_div_pow, Nat.shiftRight_eq_div_pow,
    Nat.shiftRight_eq_div_pow]
  have h24 : n / 2 ^ 24 % 2 ^ 8 = n / 2 ^ 24 :=
    Nat.mod_eq_of_lt (Nat.div_lt_of_lt_mul (by omega))
  rw [h24]

/- ---------------------------------------------------------------------
Round-trip infrastructure (claim C1)
--------------------------------------------------------------------- -/

theorem isValidChar_digit {c : Nat} (h1 : 48 ≤ c) (h2 : c ≤ 57) :
    isValidChar c VALID_IPV4_CHARS = true := by
  interval_cases c <;> decide

theorem numToDigits_all_digits : ∀ v < 256, (numToDigits v).all isDigitCode = true := by
  decide

theorem parseIntDec_numToDigits : ∀ v < 256, parseIntDec (numToDigits v) = some v := by
  decide

theorem digitsVal_numToDigits : ∀ v < 256, digitsVal (numToDigits v) = v := by
  decide

theorem numToDigits_no_leading_zero :
    ∀ v < 256, (1 < (numToDigits v).length && (numToDigits v).headD 0 = 48) = false := by
  decide

theorem numToDigits_ne_nil : ∀ v < 256, (numToDigits v).isEmpty = false := by
  decide

theorem not_dot_of_digits {p : List Nat} (h : p.all isDigitCode = true) :
    (46 : Nat) ∉ p := by
  intro hmem
  have := List.all_eq_true.mp h 46 hmem
  simp [isDigitCode] at this

/-- `List.intercalate` on a four-element list of components, unfolded. -/
theorem intercalate_four (p0 p1 p2 p3 : List Nat) :
    List.intercalate [46] [p0, p1, p2, p3]
      = p0 ++ 46 :: (p1 ++ 46 :: (p2 ++ 46 :: p3)) := by
  simp [List.intercalate]

theorem splitOn_intercalate_four {p0 p1 p2 p3 : List Nat}
    (h0 : (46 : Nat) ∉ p0) (h1 : (46 : Nat) ∉ p1)
    (h2 : (46 : Nat) ∉ p2) (h3 : (46 : Nat) ∉ p3) :
    splitOn 46 (List.intercalate [46] [p0, p1, p2, p3]) = [p0, p1, p2, p3] := by
  apply List.splitOn_intercalate
  · intro l hl
    simp only [List.mem_cons, List.not_mem_nil, or_false] at hl
    rcases hl with rfl | rfl | rfl | rfl <;> assumption
  · simp

theorem find?_invalid_none {s : List Nat}
    (h : ∀ c ∈ s, isValidChar c VALID_IPV4_CHARS = true) :
    s.find? (fun c => !isValidChar c VALID_IPV4_CHARS) = none := by
  rw [List.find?_eq_none]
  intro x hx
  simp [h x hx]

/-- On a string assembled from four all-digit components, `validateIPv4`
reduces to the per-octet loop. -/
theorem validateIPv4_quad {p0 p1 p2 p3 : List Nat}
    (h0 : p0.all isDigitCode = true) (h1 : p1.all isDigitCode = true)
    (h2 : p2.all isDigitCode = true) (h3 : p3.all isDigitCode = true) :
    validateIPv4 (List.intercalate [46] [p0, p1, p2, p3])
      = checkOctets [p0, p1, p2, p3] := by
  have hmem : ∀ c ∈ List.intercalate [46] [p0, p1, p2, p3],
      isValidChar c VALID_IPV4_CHARS = true := by
    intro c hc
    rw [intercalate_four] at hc
    simp only [List.mem_append, List.mem_cons] at hc
    have hdig : ∀ {p : List Nat}, p.all isDigitCode = true → c ∈ p →
        isValidChar c VALID_IPV4_CHARS = true := by
      intro p hp hcp
      have := List.all_eq_true.mp hp c hcp
      simp only [isDigitCode, Bool.and_eq_true, decide_eq_true_eq] at this
      exact isValidChar_digit this.1 this.2
    rcases hc with hc | rfl | hc | rfl | hc | rfl | hc
    · exact hdig h0 hc
    · decide
    · exact hdig h1 hc
    · decide
    · exact hdig h2 hc
    · decide
    · exact hdig h3 hc
  rw [validateIPv4, find?_invalid_none hmem,
    splitOn_intercalate_four (not_dot_of_digits h0) (not_dot_of_digits h1)
      (not_dot_of_digits h2) (not_dot_of_digits h3)]
  simp

theorem checkOctets_cons_ok {p : List Nat} {v : Nat} {rest : List (List Nat)}
    (hp : parseIntDec p = some v) (hv : v ≤ 255)
    (hz : (1 < p.length && p.headD 0 = 48) = false) :
    checkOctets (p :: rest) = checkOctets rest := by
  simp only [checkOctets, hp]
  rw [if_neg (Nat.not_lt.mpr hv), if_neg (by rw [hz]; simp)]

/-- Second round-trip direction: parsing a formatted bitflag recovers
the bitflag, with no error. -/
theorem parseIPv4_formatIPv4 {n : Nat} (hn : n < 2 ^ 32) :
    parseIPv4 (formatIPv4 n) = some n := by
  have ho0 : n / 2 ^ 24 < 256 := by omega
  have ho1 : n / 2 ^ 16 % 256 < 256 := Nat.mod_lt _ (by norm_num)
  have ho2 : n / 2 ^ 8 % 256 < 256 := Nat.mod_lt _ (by norm_num)
  have ho3 : n % 256 < 256 := Nat.mod_lt _ (by norm_num)
  have hfmt : formatIPv4 n = List.intercalate [46]
      [numToDigits (n / 2 ^ 24), numToDigits (n / 2 ^ 16 % 256),
       numToDigits (n / 2 ^ 8 % 256), numToDigits (n % 256)] := by
    rw [formatIPv4, bitflagToOctets_eq hn]
    rfl
  have hval : validateIPv4 (formatIPv4 n) = .valid := by
    rw [hfmt, validateIPv4_quad (numToDigits_all_digits _ ho0)
      (numToDigits_all_digits _ ho1) (numToDigits_all_digits _ ho2)
      (numToDigits_all_digits _ ho3),
      checkOctets_cons_ok (parseIntDec_numToDigits _ ho0) (by omega)
        (numToDigits_no_leading_zero _ ho0),
      checkOctets_cons_ok (parseIntDec_numToDigits _ ho1) (by omega)
        (numToDigits_no_leading_zero _ ho1),
      checkOctets_cons_ok (parseIntDec_numToDigits _ ho2) (by omega)
        (numToDigits_no_leading_zero _ ho2),
      checkOctets_cons_ok (parseIntDec_numToDigits _ ho3) (by omega)
        (numToDigits_no_leading_zero _ ho3)]
    rfl
  rw [parseIPv4, hval]
  have hsplit : splitOn 46 (formatIPv4 n)
      = [numToDigits (n / 2 ^ 24), numToDigits (n / 2 ^ 16 % 256),
         numToDigits (n / 2 ^ 8 % 256), numToDigits (n % 256)] := by
    rw [hfmt]
    exact splitOn_intercalate_four
      (not_dot_of_digits (numToDigits_all_digits _ ho0))
      (not_dot_of_digits (numToDigits_all_digits _ ho1))
      (not_dot_of_digits (numToDigits_all_digits _ ho2))
      (not_dot_of_digits (numToDigits_all_digits _ ho3))
  rw [hsplit]
  simp only [List.map, parseIntDec_numToDigits _ ho0, parseIntDec_numToDigits _ ho1,
    parseIntDec_numToDigits _ ho2, parseIntDec_numToDigits _ ho3, Option.getD_some]
  rw [octetsToBitflag_eq ho0 ho1 ho2 ho3]
  congr 1
  omega

theorem takeWhile_all_eq {p : Nat → Bool} {l : List Nat} (h : l.all p = true) :
    l.takeWhile p = l := by
  induction l with
  | nil => rfl
  | cons a t ih =>
    simp only [List.all_cons, Bool.and_eq_true] at h
    rw [List.takeWhile_cons_of_pos h.1, ih h.2]

theorem parseIntDec_canon {p : List Nat} (hne : p.isEmpty = false)
    (hd : p.all isDigitCode = true) : parseIntDec p = some (digitsVal p) := by
  simp [parseIntDec, takeWhile_all_eq hd, hne]

theorem foldl_digits_ge (p : List Nat) (acc : Nat) :
    acc * 10 ^ p.length ≤ p.foldl (fun a c => 10 * a + (c - 48)) acc := by
  induction p generalizing acc with
  | nil => simp
  | cons a t ih =>
    simp only [List.foldl_cons, List.length_cons]
    calc acc * 10 ^ (t.length + 1) = 10 * acc * 10 ^ t.length := by ring
    _ ≤ (10 * acc + (a - 48)) * 10 ^ t.length := Nat.mul_le_mul_right _ (by omega)
    _ ≤ t.foldl (fun a c => 10 * a + (c - 48)) (10 * acc + (a - 48)) := ih _

/-- A canonical octet component is recovered from its value by the
decimal renderer: the heart of the canonical round-trip. -/
theorem numToDigits_digitsVal_canon {p : List Nat} (hp : canonOctet p = true) :
    numToDigits (digitsVal p) = p := by
  simp only [canonOctet, Bool.and_eq_true, Bool.not_eq_true',
    Bool.not_eq_true, Bool.and_eq_false_iff, decide_eq_true_eq,
    decide_eq_false_iff_not] at hp
  obtain ⟨⟨⟨hne, hdig⟩, hle⟩, hlz⟩ := hp
  rcases p with _ | ⟨a, _ | ⟨b, _ | ⟨c, _ | ⟨d, rest⟩⟩⟩⟩
  · simp at hne
  · simp only [List.all_cons, List.all_nil, Bool.and_eq_true, isDigitCode,
      decide_eq_true_eq] at hdig
    obtain ⟨⟨ha1, ha2⟩, -⟩ := hdig
    have hv : digitsVal [a] = a - 48 := by simp [digitsVal]
    rw [hv, numToDigits, if_pos (by omega)]
    simp only [List.cons.injEq, and_true]
    omega
  · simp only [List.all_cons, List.all_nil, Bool.and_eq_true, isDigitCode,
      decide_eq_true_eq] at hdig
    obtain ⟨⟨ha1, ha2⟩, ⟨hb1, hb2⟩, -⟩ := hdig
    have hane : a ≠ 48 := by
      rcases hlz with h | h
      · simp at h
      · simpa using h
    have hv : digitsVal [a, b] = 10 * (a - 48) + (b - 48) := by simp [digitsVal]
    rw [hv, numToDigits, if_neg (by omega), if_pos (by omega)]
    simp only [List.cons.injEq, and_true]
    constructor <;> omega
  · simp only [List.all_cons, List.all_nil, Bool.and_eq_true, isDigitCode,
      decide_eq_true_eq] at hdig
    obtain ⟨⟨ha1, ha2⟩, ⟨hb1, hb2⟩, ⟨hc1, hc2⟩, -⟩ := hdig
    have hane : a ≠ 48 := by
      rcases hlz with h | h
      · simp at h
      · simpa using h
    have hv : digitsVal [a, b, c]
        = 10 * (10 * (a - 48) + (b - 48)) + (c - 48) := by simp [digitsVal]
    rw [hv] at hle ⊢
    rw [numToDigits, if_neg (by omega), if_neg (by omega)]
    simp only [List.cons.injEq, and_true]
    refine ⟨by omega, by omega, by omega⟩
  · exfalso
    simp only [List.all_cons, Bool.and_eq_true, isDigitCode,
      decide_eq_true_eq] at hdig
    obtain ⟨⟨ha1, ha2⟩, -⟩ := hdig
    have hane : a ≠ 48 := by
      rcases hlz with h | h
      · simp at h
      · simpa using h
    have hbound : (a - 48) * 10 ^ (rest.length + 3)
        ≤ digitsVal (a :: b :: c :: d :: rest) := by
      have := foldl_digits_ge (b :: c :: d :: rest) (a - 48)
      simpa [digitsVal, List.length_cons, Nat.add_comm, Nat.add_assoc,
        Nat.add_left_comm] using this
    have hpow : (1000 : Nat) ≤ 10 ^ (rest.length + 3) := by
      calc (1000 : Nat) = 10 ^ 3 := by norm_num
      _ ≤ 10 ^ (rest.length + 3) := Nat.pow_le_pow_right (by norm_num) (by omega)
    have : 1000 ≤ digitsVal (a :: b :: c :: d :: rest) := by
      calc (1000 : Nat) ≤ 10 ^ (rest.length + 3) := hpow
      _ ≤ (a - 48) * 10 ^ (rest.length + 3) := by
          have : 1 ≤ a - 48 := by omega
          nlinarith
      _ ≤ _ := hbound
    omega

/-- Both round-trip directions for an explicitly assembled canonical
quad of components. -/
theorem roundtrip_quad {p0 p1 p2 p3 : List Nat}
    (h0 : canonOctet p0 = true) (h1 : canonOctet p1 = true)
    (h2 : canonOctet p2 = true) (h3 : canonOctet p3 = true) :
    ∃ n, n < 2 ^ 32 ∧
      parseIPv4 (List.intercalate [46] [p0, p1, p2, p3]) = some n ∧
      formatIPv4 n = List.intercalate [46] [p0, p1, p2, p3] := by
  have unpack : ∀ {p : List Nat}, canonOctet p = true →
      p.isEmpty = false ∧ p.all isDigitCode = true ∧ digitsVal p ≤ 255 ∧
        (1 < p.length && p.headD 0 = 48) = false := by
    intro p hp
    simp only [canonOctet, Bool.and_eq_true, Bool.not_eq_true',
      Bool.not_eq_true, decide_eq_true_eq] at hp
    obtain ⟨⟨⟨hne, hdig⟩, hle⟩, hlz⟩ := hp
    exact ⟨hne, hdig, hle, hlz⟩
  obtain ⟨he0, hd0, hl0, hz0⟩ := unpack h0
  obtain ⟨he1, hd1, hl1, hz1⟩ := unpack h1
  obtain ⟨he2, hd2, hl2, hz2⟩ := unpack h2
  obtain ⟨he3, hd3, hl3, hz3⟩ := unpack h3
  have hp0 := parseIntDec_canon he0 hd0
  have hp1 := parseIntDec_canon he1 hd1
  have hp2 := parseIntDec_canon he2 hd2
  have hp3 := parseIntDec_canon he3 hd3
  have hval : validateIPv4 (List.intercalate [46] [p0, p1, p2, p3]) = .valid := by
    rw [validateIPv4_quad hd0 hd1 hd2 hd3,
      checkOctets_cons_ok hp0 hl0 hz0, checkOctets_cons_ok hp1 hl1 hz1,
      checkOctets_cons_ok hp2 hl2 hz2, checkOctets_cons_ok hp3 hl3 hz3]
    rfl
  have hsplit : splitOn 46 (List.intercalate [46] [p0, p1, p2, p3])
      = [p0, p1, p2, p3] :=
    splitOn_intercalate_four (not_dot_of_digits hd0) (not_dot_of_digits hd1)
      (not_dot_of_digits hd2) (not_dot_of_digits hd3)
  refine ⟨digitsVal p0 * 2 ^ 24 + digitsVal p1 * 2 ^ 16
    + digitsVal p2 * 2 ^ 8 + digitsVal p3, by omega, ?_, ?_⟩
  · rw [parseIPv4, hval, hsplit]
    simp only [List.map, hp0, hp1, hp2, hp3, Option.getD_some]
    rw [octetsToBitflag_eq (by omega) (by omega) (by omega) (by omega)]
  · set n := digitsVal p0 * 2 ^ 24 + digitsVal p1 * 2 ^ 16
      + digitsVal p2 * 2 ^ 8 + digitsVal p3 with hn
    have hoct : bitflagToOctets n
        = [digitsVal p0, digitsVal p1, digitsVal p2, digitsVal p3] := by
      rw [bitflagToOctets_eq (by omega)]
      have e0 : n / 2 ^ 24 = digitsVal p0 := by omega
      have e1 : n / 2 ^ 16 % 256 = digitsVal p1 := by omega
      have e2 : n / 2 ^ 8 % 256 = digitsVal p2 := by omega
      have e3 : n % 256 = digitsVal p3 := by omega
      rw [e0, e1, e2, e3]
    rw [formatIPv4, hoct]
    simp only [List.map, numToDigits_digitsVal_canon h0,
      numToDigits_digitsVal_canon h1, numToDigits_digitsVal_canon h2,
      numToDigits_digitsVal_canon h3]

/-- First round-trip direction: a canonical string parses without error
and formatting the parsed value reproduces it verbatim. -/
theorem formatIPv4_parseIPv4 {s : List Nat} (hc : isCanonicalIPv4 s = true) :
    ∃ n, parseIPv4 s = some n ∧ formatIPv4 n = s := by
  rw [isCanonicalIPv4] at hc
  split at hc
  case _ p0 p1 p2 p3 heq =>
    simp only [Bool.and_eq_true] at hc
    obtain ⟨⟨⟨h0, h1⟩, h2⟩, h3⟩ := hc
    have hs : s = List.intercalate [46] [p0, p1, p2, p3] := by
      have := List.intercalate_splitOn s (46 : Nat)
      rw [show s.splitOn 46 = splitOn 46 s from rfl, heq] at this
      exact this.symm
    obtain ⟨n, -, hparse, hfmt⟩ := roundtrip_quad h0 h1 h2 h3
    exact ⟨n, by rw [hs]; exact hparse, by rw [hs]; exact hfmt⟩
  case _ => exact absurd hc (by simp)

theorem cloGo_le (fuel : Nat) : ∀ m count : Nat, cloGo fuel m count ≤ count + fuel := by
  induction fuel with
  | zero => intro m count; simp [cloGo]
  | succ f ih =>
    intro m count
    rw [cloGo]
    split
    · calc cloGo f (toUint32 (m <<< 1)) (count + 1) ≤ (count + 1) + f := ih _ _
      _ = count + (f + 1) := by omega
    · omega

theorem countLeadingOnes_le (n : Nat) : countLeadingOnes n ≤ 32 := by
  simpa [countLeadingOnes] using cloGo_le 32 (jsNot32 n) 0

theorem genMask_lt (k : Nat) : genMask k < 2 ^ 32 := by
  rw [genMask]
  split
  · norm_num
  · exact toUint32_lt _

/-- Masking with `genMask k` zeroes the low `32-k` bits: division
semantics of the embedded `applyMask`/`generateBitmask` composition. -/
theorem applyMask_genMask {n : Nat} (k : Nat) (hn : n < 2 ^ 32) (hk : k ≤ 32) :
    applyMask n (genMask k) = 2 ^ (32 - k) * (n / 2 ^ (32 - k)) := by
  rw [applyMask, toUint32_eq_of_lt hn, toUint32_eq_of_lt (genMask_lt k),
    genMask_eq k (by omega), land_himask (32 - k) hn (by omega)]
  exact toUint32_eq_of_lt (lt_of_le_of_lt
    (by rw [Nat.mul_comm]; exact Nat.div_mul_le_self n _) hn)

/-- `extractOctet` at position 0 is the top byte. -/
theorem extractOctet_zero {n : Nat} (hn : n < 2 ^ 32) :
    extractOctet n 0 = some (n / 2 ^ 24) := by
  rw [extractOctet, if_neg (by norm_num), extractBits, if_neg (by norm_num)]
  congr 1
  have hmask : toUint32 ((1 <<< ((3 - 0) * 8 + 7 - (3 - 0) * 8 + 1) - 1) <<< ((3 - 0) * 8))
      = 2 ^ 32 - 2 ^ 24 := by decide
  rw [hmask, toUint32_eq_of_lt hn, land_himask 24 hn (by norm_num)]
  show (2 ^ 24 * (n / 2 ^ 24)) >>> ((3 - 0) * 8) = n / 2 ^ 24
  rw [Nat.shiftRight_eq_div_pow]
  show 2 ^ 24 * (n / 2 ^ 24) / 2 ^ 24 = n / 2 ^ 24
  exact Nat.mul_div_cancel_left _ (by norm_num)

/- ---------------------------------------------------------------------
Claim theorems
--------------------------------------------------------------------- -/

/-- C1: Parser/formatter round-trip.  For every canonical dotted-decimal
string (exactly 4 octets, each in [0,255], no leading zeros except the
single digit "0" — `isCanonicalIPv4`), parsing succeeds and formatting
the parsed bitflag reproduces the string; and for every 32-bit unsigned
integer `n`, `parseIPv4 (formatIPv4 n) = n`, with neither call
erroring. -/
theorem claim_C1_roundtrip :
    (∀ s : List Nat, isCanonicalIPv4 s = true →
      ∃ n, parseIPv4 s = some n ∧ formatIPv4 n = s) ∧
    (∀ n : Nat, n < 2 ^ 32 → parseIPv4 (formatIPv4 n) = some n) :=
  ⟨fun _ hc => formatIPv4_parseIPv4 hc, fun _ hn => parseIPv4_formatIPv4 hn⟩

/-- Witness for C1 at "192.168.1.1" and 0xC0A80101. -/
theorem claim_C1_roundtrip_witness :
    (∃ n, parseIPv4 (strCodes ("192.168.1.1")) = some n ∧
      formatIPv4 n = strCodes ("192.168.1.1")) ∧
    parseIPv4 (formatIPv4 0xC0A80101) = some 0xC0A80101 :=
  ⟨claim_C1_roundtrip.1 (strCodes ("192.168.1.1")) (by decide),
   claim_C1_roundtrip.2 0xC0A80101 (by norm_num)⟩

/-- C2 (code bug): `incrementIP` computes `(bitflag + amount) >>> 0`
before its bounds test, so the test `result > 0xFFFFFFFF` can never
fire: incrementing 255.255.255.255 by 1 wraps to "0.0.0.0" instead of
raising a range error, and incrementing 0.0.0.0 by -1 wraps to
"255.255.255.255"; the code's own tests expect both to throw. -/
theorem claim_C2_increment_wraps :
    incrementIP (strCodes ("255.255.255.255")) 1 = some (strCodes ("0.0.0.0")) ∧
    incrementIPNum 0xFFFFFFFF 1 = some 0 ∧
    incrementIP (strCodes ("0.0.0.0")) (-1) = some (strCodes ("255.255.255.255")) ∧
    decrementIP (strCodes ("255.255.255.255")) (-1) = some (strCodes ("0.0.0.0")) := by
  refine ⟨by decide, by decide, by decide, by decide⟩

/-- C5 (code bug): the character-set check consults bit
`charCode % 32` of the mask, so characters whose code aliases a digit
or dot bit pass it: `'p'` (112 ≡ 16, the bit of `'0'`) lets
"1p.2.3.4" validate outright, and `'N'` (78 ≡ 14, the bit of `'.'`)
reaches the octet parse and is reported as an invalid octet, not as an
invalid character.  The non-aliasing behaviour is as specified:
a genuinely rejected character is reported before any structural
check, and "1..2.3" splits into 4 components and fails as an invalid
(empty) octet rather than as a wrong octet count. -/
theorem claim_C5_charcheck_aliasing :
    validateIPv4 (strCodes ("1p.2.3.4")) = .valid ∧
    validateIPv4 (strCodes ("N.0.0.0")) = .invalidOctet (strCodes ("N")) ∧
    validateIPv4 (strCodes ("1..2.3")) = .invalidOctet [] ∧
    validateIPv4 (strCodes ("1.2.3.4!")) = .invalidChar 33 := by
  refine ⟨by decide, by decide, by decide, by decide⟩

/-- C9 (code bug): `octetsToBitflag` performs no validation: a
fourth component of 256 is ORed into the third octet's byte (yielding
0.0.1.0), a three-element input is zero-padded, and 300 in the first
slot is silently truncated to 44 — none of these throw, though the
code's own tests expect them to. -/
theorem claim_C9_octets_no_validation :
    octetsToBitflag [0, 0, 0, 256] = 0x00000100 ∧
    octetsToBitflag [192, 168, 1] = 0xC0A80100 ∧
    octetsToBitflag [300, 0, 0, 1] = 0x2C000001 := by
  refine ⟨by decide, by decide, by decide⟩

/-- C6: `createMask` and `getMaskPrefix` are mutual inverses over
contiguous masks: for every prefix length `n` in [0,32] (stated as
`n < 33`), `createMask n` succeeds and `getMaskPrefix` recovers `n`;
and for every 32-bit value that equals no contiguous mask,
`getMaskPrefix` errors — the error is detected exactly by re-deriving
`createMask (countLeadingOnes mask)` and comparing bit-for-bit.
0xFFFF00FF is such a value. -/
theorem claim_C6_mask_prefix_inverse :
    (∀ n < 33, createMask n = some (genMask n)
      ∧ getMaskPrefix (genMask n) = some n) ∧
    (∀ m : Nat, m < 2 ^ 32 → (∀ n < 33, m ≠ genMask n) →
      getMaskPrefix m = none) ∧
    getMaskPrefix 0xFFFF00FF = none := by
  refine ⟨by decide, ?_, by decide⟩
  intro m hm hne
  have hp : countLeadingOnes m ≤ 32 := countLeadingOnes_le m
  have hgm : toUint32 (genMask (countLeadingOnes m)) = genMask (countLeadingOnes m) :=
    toUint32_eq_of_lt (genMask_lt _)
  simp only [getMaskPrefix, createMask,
    if_neg (show ¬ 32 < countLeadingOnes m from by omega), hgm]
  rw [if_pos]
  rw [toUint32_eq_of_lt hm]
  exact hne _ (by omega)

/-- Witness for C6 at n = 24 and the non-contiguous 0xFFFF00FF. -/
theorem claim_C6_mask_prefix_inverse_witness :
    (createMask 24 = some (genMask 24) ∧ getMaskPrefix (genMask 24) = some 24) ∧
    getMaskPrefix 0xFFFF00FF = none :=
  ⟨claim_C6_mask_prefix_inverse.1 24 (by norm_num),
   claim_C6_mask_prefix_inverse.2.1 0xFFFF00FF (by norm_num) (by decide)⟩

/-- C10: unsigned 32-bit closure.  Every listed bitflag-producing
operation returns a value in [0, 2^32-1] whenever it does not raise:
the trailing `>>> 0` in each source function maps the (possibly
signed) intermediate bit pattern to its unsigned value. -/
theorem claim_C10_uint32_closure :
    (∀ ip pos v m : Nat, setOctet ip pos v = some m → m < 2 ^ 32) ∧
    (∀ octets : List Nat, octetsToBitflag octets < 2 ^ 32) ∧
    (∀ p m : Nat, createMask p = some m → m < 2 ^ 32) ∧
    (∀ m : Nat, invertMaskBits m < 2 ^ 32) ∧
    (∀ a b : Nat, applyMask a b < 2 ^ 32) ∧
    (∀ a b : Nat, combineMasks a b < 2 ^ 32) := by
  refine ⟨?_, ?_, ?_, ?_, ?_, ?_⟩
  · intro ip pos v m h
    rw [setOctet] at h
    split at h
    · exact absurd h (by simp)
    · split at h
      · exact absurd h (by simp)
      · simp only [Option.some.injEq] at h
        rw [← h]
        exact toUint32_lt _
  · intro octets
    exact toUint32_lt _
  · intro p m h
    rw [createMask] at h
    split at h
    · exact absurd h (by simp)
    · simp only [Option.some.injEq] at h
      rw [← h]
      exact toUint32_lt _
  · intro m
    exact toUint32_lt _
  · intro a b
    exact toUint32_lt _
  · intro a b
    exact toUint32_lt _

/-- Witness for C10 at concrete inputs of each operation. -/
theorem claim_C10_uint32_closure_witness :
    (0xC0A8010A : Nat) < 2 ^ 32 ∧ octetsToBitflag [192, 168, 1, 1] < 2 ^ 32 ∧
    (0xFFFFFF00 : Nat) < 2 ^ 32 ∧ invertMaskBits 0xFFFFFF00 < 2 ^ 32 ∧
    applyMask 0xC0A80105 0xFFFFFF00 < 2 ^ 32 ∧ combineMasks 0xFF00FF00 0xFFFF0000 < 2 ^ 32 :=
  ⟨claim_C10_uint32_closure.1 0xC0A80101 3 10 0xC0A8010A (by decide),
   claim_C10_uint32_closure.2.1 [192, 168, 1, 1],
   claim_C10_uint32_closure.2.2.1 24 0xFFFFFF00 (by decide),
   claim_C10_uint32_closure.2.2.2.1 0xFFFFFF00,
   claim_C10_uint32_closure.2.2.2.2.1 0xC0A80105 0xFFFFFF00,
   claim_C10_uint32_closure.2.2.2.2.2 0xFF00FF00 0xFFFF0000⟩

/-- C3 counterexample: 192.0.0.1 (0xC0000001) lies in 192.0.0.0/24 and
matches no earlier category, yet `getSpecialIPType` classifies it
`Public`, not `Reserved` — the reserved ranges of special.ts are only
0.0.0.0/8 and 240.0.0.0-255.255.255.254. -/
theorem claim_C3_counterexample :
    Special.getSpecialIPType 0xC0000001 = "Public" ∧
    ("Public" : String) ≠ "Reserved" := by
  refine ⟨by decide, by decide⟩

set_option maxHeartbeats 2000000 in
/-- C3 amended: `getSpecialIPType` returns the first matching tag of
the spec's precedence order (Private, Loopback, Link-local, Multicast,
Broadcast, Documentation, Benchmarking, Shared-Address-Space, Reserved,
Public — the source checks Benchmarking and Shared before
Documentation, but those three ranges are pairwise disjoint, so the
classifiers agree on every address); every address in 0.0.0.0/8, and
every address in 240.0.0.0/4 other than 255.255.255.255, that matches
no earlier category is classified Reserved; documentation addresses
are returned as Documentation, not Reserved; but addresses of
192.0.0.0/24 are not in the reserved ranges and come out Public. -/
theorem claim_C3_amended :
    (∀ ip : Nat, Special.getSpecialIPType ip = Special.specOrderClassify ip) ∧
    (∀ ip : Nat, ip ≤ 0x00FFFFFF → Special.getSpecialIPType ip = "Reserved") ∧
    (∀ ip : Nat, 0xF0000000 ≤ ip → ip ≤ 0xFFFFFFFE →
      Special.getSpecialIPType ip = "Reserved") ∧
    (∀ ip : Nat, 0xC0000000 ≤ ip → ip ≤ 0xC00000FF →
      Special.getSpecialIPType ip = "Public") ∧
    (∀ ip : Nat, Special.isDocumentationIP ip = true →
      Special.getSpecialIPType ip = "Documentation") := by
  refine ⟨?_, ?_, ?_, ?_, ?_⟩
  · intro ip
    simp only [Special.getSpecialIPType, Special.specOrderClassify,
      Special.isPrivateIP, Special.isLoopbackIP, Special.isLinkLocalIP,
      Special.isMulticastIP, Special.isBroadcastIP, Special.isBenchmarkingIP,
      Special.isSharedAddressSpaceIP, Special.isDocumentationIP,
      Special.isReservedIP, Bool.or_eq_true, Bool.and_eq_true,
      decide_eq_true_eq]
    split_ifs <;> first | rfl | omega
  · intro ip hip
    simp only [Special.getSpecialIPType, Special.isPrivateIP,
      Special.isLoopbackIP, Special.isLinkLocalIP, Special.isMulticastIP,
      Special.isBroadcastIP, Special.isBenchmarkingIP,
      Special.isSharedAddressSpaceIP, Special.isDocumentationIP,
      Special.isReservedIP, Bool.or_eq_true, Bool.and_eq_true,
      decide_eq_true_eq]
    split_ifs <;> first | rfl | omega
  · intro ip h1 h2
    simp only [Special.getSpecialIPType, Special.isPrivateIP,
      Special.isLoopbackIP, Special.isLinkLocalIP, Special.isMulticastIP,
      Special.isBroadcastIP, Special.isBenchmarkingIP,
      Special.isSharedAddressSpaceIP, Special.isDocumentationIP,
      Special.isReservedIP, Bool.or_eq_true, Bool.and_eq_true,
      decide_eq_true_eq]
    split_ifs <;> first | rfl | omega
  · intro ip h1 h2
    simp only [Special.getSpecialIPType, Special.isPrivateIP,
      Special.isLoopbackIP, Special.isLinkLocalIP, Special.isMulticastIP,
      Special.isBroadcastIP, Special.isBenchmarkingIP,
      Special.isSharedAddressSpaceIP, Special.isDocumentationIP,
      Special.isReservedIP, Bool.or_eq_true, Bool.and_eq_true,
      decide_eq_true_eq]
    split_ifs <;> first | rfl | omega
  · intro ip hdoc
    simp only [Special.isDocumentationIP, Bool.or_eq_true, Bool.and_eq_true,
      decide_eq_true_eq] at hdoc
    simp only [Special.getSpecialIPType, Special.isPrivateIP,
      Special.isLoopbackIP, Special.isLinkLocalIP, Special.isMulticastIP,
      Special.isBroadcastIP, Special.isBenchmarkingIP,
      Special.isSharedAddressSpaceIP, Special.isDocumentationIP,
      Special.isReservedIP, Bool.or_eq_true, Bool.and_eq_true,
      decide_eq_true_eq]
    split_ifs <;> first | rfl | omega

/-- Witness for C3's amended claim at 8.8.8.8, 0.0.0.1, 240.0.0.1,
192.0.0.1 and 192.0.2.1. -/
theorem claim_C3_amended_witness :
    Special.getSpecialIPType 0x08080808 = Special.specOrderClassify 0x08080808 ∧
    Special.getSpecialIPType 0x00000001 = "Reserved" ∧
    Special.getSpecialIPType 0xF0000001 = "Reserved" ∧
    Special.getSpecialIPType 0xC0000001 = "Public" ∧
    Special.getSpecialIPType 0xC0000201 = "Documentation" :=
  ⟨claim_C3_amended.1 0x08080808,
   claim_C3_amended.2.1 0x00000001 (by norm_num),
   claim_C3_amended.2.2.1 0xF0000001 (by norm_num) (by norm_num),
   claim_C3_amended.2.2.2.1 0xC0000001 (by norm_num) (by norm_num),
   claim_C3_amended.2.2.2.2 0xC0000201 (by decide)⟩

/-- C4 counterexample: 226.0.0.0 (0xE2000000) is multicast with first
octet in 225-231, but `getMulticastType` returns `Reserved`, not
`Transient Multicast` — only first octet 225 is classified Transient
(the code's own tests expect 226.0.0.0 to be Reserved). -/
theorem claim_C4_counterexample :
    Classify.getMulticastType 0xE2000000 = "Reserved" ∧
    ("Reserved" : String) ≠ "Transient Multicast" := by
  refine ⟨by decide, by decide⟩

set_option maxHeartbeats 2000000 in
/-- C4 amended: for every 32-bit bitflag, `getMulticastType` is
determined by the first octet as follows — 224: Well-Known; 225 (only):
Transient; 226-231: Reserved; 232-235: Source-Specific; 236-237: GLOP;
238: Unicast-Prefix-based exactly on 238.0.0.0/24, Reserved on the rest
of 238/8; 239: Administratively-Scoped; outside 224-239:
"Not Multicast". -/
theorem claim_C4_amended :
    ∀ n : Nat, n < 2 ^ 32 →
      (n / 2 ^ 24 < 224 ∨ 239 < n / 2 ^ 24 →
        Classify.getMulticastType n = "Not Multicast") ∧
      (n / 2 ^ 24 = 224 → Classify.getMulticastType n = "Well-Known Multicast") ∧
      (n / 2 ^ 24 = 225 → Classify.getMulticastType n = "Transient Multicast") ∧
      (226 ≤ n / 2 ^ 24 → n / 2 ^ 24 ≤ 231 →
        Classify.getMulticastType n = "Reserved") ∧
      (232 ≤ n / 2 ^ 24 → n / 2 ^ 24 ≤ 235 →
        Classify.getMulticastType n = "Source-Specific Multicast") ∧
      (236 ≤ n / 2 ^ 24 → n / 2 ^ 24 ≤ 237 →
        Classify.getMulticastType n = "GLOP Addressing") ∧
      (0xEE000000 ≤ n → n ≤ 0xEE0000FF →
        Classify.getMulticastType n = "Unicast-Prefix-based Multicast") ∧
      (n / 2 ^ 24 = 238 → 0xEE0000FF < n →
        Classify.getMulticastType n = "Reserved") ∧
      (n / 2 ^ 24 = 239 → Classify.getMulticastType n = "Administratively Scoped") := by
  intro n hn
  have hm4 := applyMask_genMask 4 hn (by norm_num)
  have hm8 := applyMask_genMask 8 hn (by norm_num)
  have hm10 := applyMask_genMask 10 hn (by norm_num)
  have hm24 := applyMask_genMask 24 hn (by norm_num)
  have hoct : (extractOctet n 0).getD 0 = n / 2 ^ 24 := by
    rw [extractOctet_zero hn]
    rfl
  norm_num only at hm4 hm8 hm10 hm24
  refine ⟨?_, ?_, ?_, ?_, ?_, ?_, ?_, ?_, ?_⟩ <;>
    (simp only [Classify.getMulticastType, Classify.isMulticastIP,
      Classify.isReservedIP, hm4, hm8, hm10, hm24, hoct, Bool.not_eq_true',
      Bool.or_eq_true, decide_eq_true_eq, decide_eq_false_iff_not];
     intros; split_ifs <;> first | rfl | omega)

/-- Witness for C4's amended claim at one address per sub-range. -/
theorem claim_C4_amended_witness :
    Classify.getMulticastType 0x0A000001 = "Not Multicast" ∧
    Classify.getMulticastType 0xE0000001 = "Well-Known Multicast" ∧
    Classify.getMulticastType 0xE1000000 = "Transient Multicast" ∧
    Classify.getMulticastType 0xE7FFFFFF = "Reserved" ∧
    Classify.getMulticastType 0xE8000000 = "Source-Specific Multicast" ∧
    Classify.getMulticastType 0xEC000000 = "GLOP Addressing" ∧
    Classify.getMulticastType 0xEE000001 = "Unicast-Prefix-based Multicast" ∧
    Classify.getMulticastType 0xEE010000 = "Reserved" ∧
    Classify.getMulticastType 0xEFFFFFFF = "Administratively Scoped" :=
  ⟨(claim_C4_amended 0x0A000001 (by norm_num)).1 (by norm_num),
   (claim_C4_amended 0xE0000001 (by norm_num)).2.1 (by norm_num),
   (claim_C4_amended 0xE1000000 (by norm_num)).2.2.1 (by norm_num),
   (claim_C4_amended 0xE7FFFFFF (by norm_num)).2.2.2.1 (by norm_num) (by norm_num),
   (claim_C4_amended 0xE8000000 (by norm_num)).2.2.2.2.1 (by norm_num) (by norm_num),
   (claim_C4_amended 0xEC000000 (by norm_num)).2.2.2.2.2.1 (by norm_num) (by norm_num),
   (claim_C4_amended 0xEE000001 (by norm_num)).2.2.2.2.2.2.1 (by norm_num) (by norm_num),
   (claim_C4_amended 0xEE010000 (by norm_num)).2.2.2.2.2.2.2.1 (by norm_num) (by norm_num),
   (claim_C4_amended 0xEFFFFFFF (by norm_num)).2.2.2.2.2.2.2.2 (by norm_num)⟩

theorem splitSubnetGo_eq {network size : Nat} :
    ∀ (k i : Nat), (∀ j, j < k → network + (i + j) * size < 2 ^ 32) →
      splitSubnetGo network size i k
        = some ((List.range k).map (fun j => network + (i + j) * size)) := by
  intro k
  induction k with
  | zero => intro i _; simp [splitSubnetGo]
  | succ k ih =>
    intro i h
    have h0 : network + i * size < 2 ^ 32 := by
      have := h 0 (by omega)
      simpa using this
    simp only [splitSubnetGo]
    rw [toUint32_eq_of_lt h0, if_neg (by omega)]
    rw [ih (i + 1) (fun j hj => by
      have hx := h (j + 1) (by omega)
      have he : i + 1 + j = i + (j + 1) := by omega
      rw [he]
      exact hx)]
    simp only [Option.map_some']
    have htail : List.map (fun j => network + (i + 1 + j) * size) (List.range k)
        = List.map ((fun j => network + (i + j) * size) ∘ Nat.succ) (List.range k) := by
      apply List.map_congr_left
      intro a _
      simp only [Function.comp_apply, Nat.succ_eq_add_one]
      have he2 : i + 1 + a = i + (a + 1) := by omega
      rw [he2]
    have hhead : network + i * size = network + (i + 0) * size := by ring
    rw [List.range_succ_eq_map, List.map_cons, List.map_map, htail, hhead]

/-- C7: `splitSubnet` fails exactly when `newPrefix <= currentPrefix` or
`newPrefix > 32`; otherwise (for a network address aligned to the
current prefix) it returns `2^(newPrefix-currentPrefix)` network
addresses, consecutive at stride `2^(32-newPrefix)` starting at the
network; splitting "192.168.1.0" from /24 into /26 yields the four
expected addresses. -/
theorem claim_C7_splitSubnet :
    (∀ network cur newP : Nat, newP ≤ cur ∨ 32 < newP →
      splitSubnetNum network cur newP = none) ∧
    (∀ network cur newP : Nat, cur < newP → newP ≤ 32 → network < 2 ^ 32 →
      network % 2 ^ (32 - cur) = 0 →
      splitSubnetNum network cur newP
        = some ((List.range (2 ^ (newP - cur))).map
            (fun i => network + i * 2 ^ (32 - newP)))) ∧
    splitSubnet (strCodes ("192.168.1.0")) 24 26
      = some [strCodes ("192.168.1.0"), strCodes ("192.168.1.64"),
              strCodes ("192.168.1.128"), strCodes ("192.168.1.192")] := by
  refine ⟨?_, ?_, by decide⟩
  · intro network cur newP h
    rw [splitSubnetNum, if_pos h]
  · intro network cur newP h1 h2 h3 h4
    rw [splitSubnetNum, if_neg (by omega)]
    have hkey : 2 ^ (newP - cur) * 2 ^ (32 - newP) = 2 ^ (32 - cur) := by
      rw [← pow_add]
      congr 1
      omega
    have hbound : ∀ j, j < 2 ^ (newP - cur) →
        network + (0 + j) * 2 ^ (32 - newP) < 2 ^ 32 := by
      intro j hj
      have hnet : network + 2 ^ (32 - cur) ≤ 2 ^ 32 := by
        obtain ⟨q, hq⟩ := Nat.dvd_of_mod_eq_zero h4
        have h32 : (2 : Nat) ^ 32 = 2 ^ cur * 2 ^ (32 - cur) := by
          rw [← pow_add]
          congr 1
          omega
        have hqlt : q < 2 ^ cur := by
          by_contra hc
          push_neg at hc
          have hx : 2 ^ cur * 2 ^ (32 - cur) ≤ 2 ^ (32 - cur) * q := by
            calc 2 ^ cur * 2 ^ (32 - cur) = 2 ^ (32 - cur) * 2 ^ cur := by ring
            _ ≤ 2 ^ (32 - cur) * q := Nat.mul_le_mul_left _ hc
          rw [hq, h32] at h3
          omega
        calc network + 2 ^ (32 - cur) = 2 ^ (32 - cur) * (q + 1) := by rw [hq]; ring
        _ ≤ 2 ^ (32 - cur) * 2 ^ cur := Nat.mul_le_mul_left _ (by omega)
        _ = 2 ^ 32 := by rw [h32]; ring
      have hjB : j * 2 ^ (32 - newP) ≤ 2 ^ (32 - cur) - 2 ^ (32 - newP) := by
        calc j * 2 ^ (32 - newP) ≤ (2 ^ (newP - cur) - 1) * 2 ^ (32 - newP) :=
          Nat.mul_le_mul_right _ (by omega)
        _ = 2 ^ (newP - cur) * 2 ^ (32 - newP) - 2 ^ (32 - newP) := by
          rw [Nat.sub_mul, one_mul]
        _ = 2 ^ (32 - cur) - 2 ^ (32 - newP) := by rw [hkey]
      have hBpos : 0 < 2 ^ (32 - newP) := Nat.pos_pow_of_pos _ (by norm_num)
      have hz : (0 + j) * 2 ^ (32 - newP) = j * 2 ^ (32 - newP) := by ring
      rw [hz]
      generalize hjBt : j * 2 ^ (32 - newP) = t at hjB
      omega
    rw [splitSubnetGo_eq _ _ hbound]
    congr 1
    apply List.map_congr_left
    intro a _
    simp

/-- Witness for C7 at "192.168.1.0"/24 split into /26 (numeric core),
and the rejected inverted split. -/
theorem claim_C7_splitSubnet_witness :
    splitSubnetNum 0xC0A80100 26 24 = none ∧
    splitSubnetNum 0xC0A80100 24 26
      = some ((List.range (2 ^ (26 - 24))).map
          (fun i => 0xC0A80100 + i * 2 ^ (32 - 26))) :=
  ⟨claim_C7_splitSubnet.1 0xC0A80100 26 24 (Or.inl (by norm_num)),
   claim_C7_splitSubnet.2.1 0xC0A80100 24 26 (by norm_num) (by norm_num)
     (by norm_num) (by norm_num)⟩

theorem aligned_add_block_le {a h : Nat} (ha : a < 2 ^ 32) (hh : h ≤ 32) :
    2 ^ h * (a / 2 ^ h) + 2 ^ h ≤ 2 ^ 32 := by
  have h32 : (2 : Nat) ^ 32 = 2 ^ h * 2 ^ (32 - h) := by
    rw [← pow_add]
    congr 1
    omega
  have hq : a / 2 ^ h < 2 ^ (32 - h) := by
    apply Nat.div_lt_of_lt_mul
    rw [← h32]
    exact ha
  calc 2 ^ h * (a / 2 ^ h) + 2 ^ h = 2 ^ h * (a / 2 ^ h + 1) := by ring
  _ ≤ 2 ^ h * 2 ^ (32 - h) := Nat.mul_le_mul_left _ (by omega)
  _ = 2 ^ 32 := h32.symm

theorem calcNet_eq {a p : Nat} (ha : a < 2 ^ 32) (hp : p ≤ 32) :
    calculateNetworkAddressNum a p
      = some (2 ^ (32 - p) * (a / 2 ^ (32 - p))) := by
  rw [calculateNetworkAddressNum, createMask, if_neg (by omega)]
  simp only [Option.map_some', toUint32_eq_of_lt (genMask_lt p)]
  rw [applyMask_genMask p ha hp]
  rw [toUint32_eq_of_lt (lt_of_le_of_lt
    (by rw [Nat.mul_comm]; exact Nat.div_mul_le_self a _) ha)]

theorem calcBcast_eq {a p : Nat} (ha : a < 2 ^ 32) (hp : p ≤ 32) :
    calculateBroadcastAddressNum a p
      = some (2 ^ (32 - p) * (a / 2 ^ (32 - p)) + (2 ^ (32 - p) - 1)) := by
  have hblock := aligned_add_block_le (h := 32 - p) ha (by omega)
  have hpow : (2 : Nat) ^ (32 - p) ≤ 2 ^ 32 := Nat.pow_le_pow_right (by norm_num) (by omega)
  have hbpos : (0 : Nat) < 2 ^ (32 - p) := Nat.pos_pow_of_pos _ (by norm_num)
  rw [calculateBroadcastAddressNum, createMask, if_neg (by omega)]
  simp only [Option.map_some', toUint32_eq_of_lt (genMask_lt p)]
  rw [toUint32_eq_of_lt ha, jsNot32_genMask p (by omega),
    toUint32_eq_of_lt (show 2 ^ (32 - p) - 1 < 2 ^ 32 by omega),
    lor_lowmask, toUint32_eq_of_lt (by omega)]

/-- C8: `isSubnetOf` returns true exactly when `pA > pB` (strictly;
equal prefixes are never subsets) and A's network masked to `pB` bits
equals B's network masked to `pB` bits; and whenever it returns true,
every address between A's network address and A's broadcast address
(as computed by `calculateNetworkAddress`/`calculateBroadcastAddress`)
lies between B's network address and B's broadcast address. -/
theorem claim_C8_isSubnetOf :
    ∀ a pa b pb : Nat, a < 2 ^ 32 → b < 2 ^ 32 → pa ≤ 32 → pb ≤ 32 →
      (isSubnetOfNum a pa b pb = some true ↔
        pb < pa ∧ applyMask a (genMask pb) = applyMask b (genMask pb)) ∧
      (isSubnetOfNum a pa b pb = some true →
        ∀ x na ba nb bb : Nat,
          calculateNetworkAddressNum a pa = some na →
          calculateBroadcastAddressNum a pa = some ba →
          calculateNetworkAddressNum b pb = some nb →
          calculateBroadcastAddressNum b pb = some bb →
          na ≤ x → x ≤ ba → nb ≤ x ∧ x ≤ bb) := by
  intro a pa b pb ha hb hpa hpb
  have hcreate : createMask pb = some (genMask pb) := by
    rw [createMask, if_neg (by omega), toUint32_eq_of_lt (genMask_lt pb)]
  have hdissect : isSubnetOfNum a pa b pb = some true →
      pb < pa ∧ applyMask a (genMask pb) = applyMask b (genMask pb) := by
    intro hsub
    rw [isSubnetOfNum] at hsub
    split at hsub
    case isTrue hc => simp at hsub
    case isFalse hc =>
      rw [hcreate] at hsub
      simp only [Option.map_some', Option.some.injEq, decide_eq_true_eq] at hsub
      exact ⟨by omega, hsub⟩
  constructor
  · constructor
    · exact hdissect
    · rintro ⟨hlt, heq⟩
      rw [isSubnetOfNum, if_neg (by omega), hcreate]
      simp [heq]
  · intro hsub x na ba nb bb hna hba hnb hbb hx1 hx2
    obtain ⟨hlt, heq⟩ := hdissect hsub
    rw [applyMask_genMask pb ha hpb, applyMask_genMask pb hb hpb] at heq
    have hdiv : a / 2 ^ (32 - pb) = b / 2 ^ (32 - pb) :=
      Nat.eq_of_mul_eq_mul_left (Nat.pos_pow_of_pos _ (by norm_num)) heq
    rw [calcNet_eq ha hpa] at hna
    rw [calcBcast_eq ha hpa] at hba
    rw [calcNet_eq hb hpb] at hnb
    rw [calcBcast_eq hb hpb] at hbb
    have hna' : na = 2 ^ (32 - pa) * (a / 2 ^ (32 - pa)) := (Option.some.inj hna).symm
    have hba' : ba = 2 ^ (32 - pa) * (a / 2 ^ (32 - pa)) + (2 ^ (32 - pa) - 1) :=
      (Option.some.inj hba).symm
    have hnb' : nb = 2 ^ (32 - pb) * (b / 2 ^ (32 - pb)) := (Option.some.inj hnb).symm
    have hbb' : bb = 2 ^ (32 - pb) * (b / 2 ^ (32 - pb)) + (2 ^ (32 - pb) - 1) :=
      (Option.some.inj hbb).symm
    have hpos : (0 : Nat) < 2 ^ (32 - pa) := Nat.pos_pow_of_pos _ (by norm_num)
    have hxdiv : x / 2 ^ (32 - pa) = a / 2 ^ (32 - pa) := by
      apply Nat.div_eq_of_lt_le
      · rw [Nat.mul_comm]
        omega
      · have hexp : (a / 2 ^ (32 - pa) + 1) * 2 ^ (32 - pa)
            = 2 ^ (32 - pa) * (a / 2 ^ (32 - pa)) + 2 ^ (32 - pa) := by ring
        omega
    have hxdivk : x / 2 ^ (32 - pb) = b / 2 ^ (32 - pb) := by
      have hsplitpow : (2 : Nat) ^ (32 - pb) = 2 ^ (32 - pa) * 2 ^ (pa - pb) := by
        rw [← pow_add]
        congr 1
        omega
      calc x / 2 ^ (32 - pb) = x / 2 ^ (32 - pa) / 2 ^ (pa - pb) := by
            rw [Nat.div_div_eq_div_mul, ← hsplitpow]
      _ = a / 2 ^ (32 - pa) / 2 ^ (pa - pb) := by rw [hxdiv]
      _ = a / 2 ^ (32 - pb) := by rw [Nat.div_div_eq_div_mul, ← hsplitpow]
      _ = b / 2 ^ (32 - pb) := hdiv
    have hle : 2 ^ (32 - pb) * (x / 2 ^ (32 - pb)) ≤ x := by
      rw [Nat.mul_comm]
      exact Nat.div_mul_le_self x _
    have hmod : x = 2 ^ (32 - pb) * (x / 2 ^ (32 - pb)) + x % 2 ^ (32 - pb) :=
      (Nat.div_add_mod x _).symm
    have hmodlt : x % 2 ^ (32 - pb) < 2 ^ (32 - pb) :=
      Nat.mod_lt _ (Nat.pos_pow_of_pos _ (by norm_num))
    rw [← hxdivk] at hnb' hbb'
    omega

/-- Witness for C8 at 192.168.1.0/24 inside 192.168.0.0/16 with
x = 192.168.1.5. -/
theorem claim_C8_isSubnetOf_witness :
    (isSubnetOfNum 0xC0A80100 24 0xC0A80000 16 = some true ↔
      16 < 24 ∧ applyMask 0xC0A80100 (genMask 16) = applyMask 0xC0A80000 (genMask 16)) ∧
    (0xC0A80000 : Nat) ≤ 0xC0A80105 ∧ (0xC0A80105 : Nat) ≤ 0xC0A8FFFF :=
  ⟨(claim_C8_isSubnetOf 0xC0A80100 24 0xC0A80000 16 (by norm_num) (by norm_num)
      (by norm_num) (by norm_num)).1,
   (claim_C8_isSubnetOf 0xC0A80100 24 0xC0A80000 16 (by norm_num) (by norm_num)
      (by norm_num) (by norm_num)).2 (by decide) 0xC0A80105 0xC0A80100 0xC0A801FF
      0xC0A80000 0xC0A8FFFF (by decide) (by decide) (by decide) (by decide)
      (by norm_num) (by norm_num)⟩

end IPvx
